import Mathlib

/-!
Shallow embedding of the account-scheduling and resilient-request core of
the `opencode-antigravity-nano-banana` plugin.

* `src/accounts.ts` — account selection (`selectAccount`), soft-quota
  classification (`isSoftQuotaExceeded`) and the three in-place mutators
  (`markUsed`, `markRateLimited`, `updateCachedQuota`).
* The unnamed API module — the `generateImage` retry/backoff executor that
  drives one request across `CLOUDCODE_FALLBACK_URLS` with per-failure-class
  policy (503 retry-in-place, 429 next-endpoint, other → immediate return).

Timestamps and durations are modelled as `Nat` (JS millisecond epoch values),
quota fractions as `ℚ` (the source compares a JSON number against the literal
threshold `0.1`; only order matters here, never rounding).  The ambient clock
`Date.now()` is modelled as an explicit `now : Nat` argument.
-/

namespace NanoBanana

-- ── Constants (src/constants.ts, src/accounts.ts) ──

/-- Constant `RATE_LIMIT_COOLDOWN_MS = 5 * 60 * 1000` (accounts.ts line 5). -/
def RATE_LIMIT_COOLDOWN_MS : Nat := 5 * 60 * 1000

/-- Constant `SOFT_QUOTA_THRESHOLD = 0.1` (constants.ts line 67), i.e. `1/10`
(written with `mkRat` so that kernel reduction can evaluate it). -/
def SOFT_QUOTA_THRESHOLD : ℚ := mkRat 1 10

/-- Constant `QUOTA_CACHE_TTL_MS = 5 * 60 * 1000` (constants.ts line 69). -/
def QUOTA_CACHE_TTL_MS : Nat := 5 * 60 * 1000

/-- Constant `CAPACITY_RETRY_COUNT = 3` (constants.ts line 43). -/
def CAPACITY_RETRY_COUNT : Nat := 3

/-- Constant `CAPACITY_RETRY_BASE_DELAY_MS = 3_000` (constants.ts line 44). -/
def CAPACITY_RETRY_BASE_DELAY_MS : Nat := 3000

/-- Constant `CLOUDCODE_FALLBACK_URLS` (constants.ts lines 12–16): three endpoints. -/
def CLOUDCODE_FALLBACK_URLS : List String :=
  ["https://daily-cloudcode-pa.googleapis.com",
   "https://daily-cloudcode-pa.sandbox.googleapis.com",
   "https://cloudcode-pa.googleapis.com"]

-- ── Data model (src/types.ts) ──

/-- Shape of `Account.cachedImageQuota` (types.ts lines 11–15). -/
structure CachedQuota where
  remainingFraction : ℚ
  resetTime : Option String
  updatedAt : Nat
deriving DecidableEq, Repr

/-- Record `Account` (types.ts lines 2–16).  Optional JS fields become `Option`. -/
structure Account where
  email : String
  refreshToken : String
  accessToken : Option String
  projectId : Option String
  managedProjectId : Option String
  lastUsed : Option Nat
  rateLimitedUntil : Option Nat
  cachedImageQuota : Option CachedQuota
deriving DecidableEq, Repr

/-- Record `AccountsConfig` (types.ts lines 18–20). -/
structure AccountsConfig where
  accounts : List Account
deriving DecidableEq, Repr

-- ── Soft quota helper (accounts.ts lines 13–18) ──

/--
Function `isSoftQuotaExceeded` (accounts.ts lines 13–18).  The source reads the
ambient clock (`Date.now()`), modelled by the explicit `now` argument:
no cached quota ⇒ `false`; stale cache (`now - updatedAt > TTL`) ⇒ `false`;
otherwise `remainingFraction <= SOFT_QUOTA_THRESHOLD`.
-/
def isSoftQuotaExceeded (now : Nat) (account : Account) : Bool :=
  match account.cachedImageQuota with
  | none => false
  | some quota =>
    if now - quota.updatedAt > QUOTA_CACHE_TTL_MS then false
    else decide (quota.remainingFraction ≤ SOFT_QUOTA_THRESHOLD)

-- ── Account selection (accounts.ts lines 27–53) ──

/--
The cooldown test of accounts.ts line 37:
`a.rateLimitedUntil && a.rateLimitedUntil > now` (an absent field is falsy).
-/
def rateLimitActive (a : Account) (now : Nat) : Bool :=
  match a.rateLimitedUntil with
  | none => false
  | some t => decide (t > now)

/--
The accounts surviving the two `continue` guards of the selection loop
(accounts.ts lines 35–37): not in `excludeEmails` and not cooldown-active.
-/
def eligibleAccounts (config : AccountsConfig) (excludeEmails : List String)
    (now : Nat) : List Account :=
  config.accounts.filter
    (fun a => !(excludeEmails.contains a.email) && !(rateLimitActive a now))

/-- Effective last-used key of the sort comparator: `a.lastUsed || 0`. -/
def effLastUsed (a : Account) : Nat := a.lastUsed.getD 0

/--
The comparator of accounts.ts line 51, `(a.lastUsed || 0) - (b.lastUsed || 0)`,
as the total Boolean order used by the (stable) JS sort.
-/
def lruLE (a b : Account) : Bool := decide (effLastUsed a ≤ effLastUsed b)

/--
Function `selectAccount` (accounts.ts lines 27–53).  The eligible accounts are split
into `softQuotaExceeded` / `available` (the loop's two `push` targets, here
`List.partition`), the pool prefers `available`, and `pool.sort(...)[0]` is
the head of the stable sort.  `Array.prototype.sort` is stable (ES2019), so
`List.mergeSort` is its faithful counterpart.
-/
def selectAccount (config : AccountsConfig) (excludeEmails : List String)
    (now : Nat) : Option Account :=
  let parts := (eligibleAccounts config excludeEmails now).partition
    (fun a => isSoftQuotaExceeded now a)
  let softQuotaExceeded := parts.1
  let available := parts.2
  let pool := if available.length > 0 then available else softQuotaExceeded
  if pool.length = 0 then none
  else (pool.mergeSort lruLE).head?

/-- The `softQuotaExceeded` list built by the selection loop. -/
def softPool (config : AccountsConfig) (excludeEmails : List String)
    (now : Nat) : List Account :=
  (eligibleAccounts config excludeEmails now).filter
    (fun a => isSoftQuotaExceeded now a)

/-- The `available` list built by the selection loop. -/
def availPool (config : AccountsConfig) (excludeEmails : List String)
    (now : Nat) : List Account :=
  (eligibleAccounts config excludeEmails now).filter
    (fun a => !(isSoftQuotaExceeded now a))

/-- The pool the sort runs on: `available` if non-empty, else the soft list. -/
def poolOf (config : AccountsConfig) (excludeEmails : List String)
    (now : Nat) : List Account :=
  if (availPool config excludeEmails now).length > 0 then
    availPool config excludeEmails now
  else softPool config excludeEmails now

/--
Function `selectAccount` with the store threaded through, mirroring that the source
function only reads `config.accounts`: the only in-place write in its body is
`pool.sort(...)`, applied to the freshly built local candidate array (`pool`
aliases `available`/`softQuotaExceeded`, arrays created by this very call),
never to `config.accounts`, so the store component passes through unchanged.
-/
def selectAccountS (config : AccountsConfig) (excludeEmails : List String)
    (now : Nat) : Option Account × AccountsConfig :=
  (selectAccount config excludeEmails now, config)

-- ── Mutation helpers (accounts.ts lines 60–99) ──

/--
Translation of `config.accounts.find((a) => a.email === email)` followed by an in-place
field write: the first record satisfying `p` is replaced by `f` of itself,
all other records are untouched; no match leaves the list unchanged.
-/
def updateFirst (p : Account → Bool) (f : Account → Account) :
    List Account → List Account
  | [] => []
  | a :: rest => if p a then f a :: rest else a :: updateFirst p f rest

/-- Function `markUsed` (accounts.ts lines 60–65): sets `lastUsed = now`. -/
def markUsed (config : AccountsConfig) (email : String) (now : Nat) :
    AccountsConfig :=
  ⟨updateFirst (fun a => a.email == email)
    (fun a => { a with lastUsed := some now }) config.accounts⟩

/--
Function `markRateLimited` (accounts.ts lines 70–79): sets
`rateLimitedUntil = now + RATE_LIMIT_COOLDOWN_MS`.
-/
def markRateLimited (config : AccountsConfig) (email : String) (now : Nat) :
    AccountsConfig :=
  ⟨updateFirst (fun a => a.email == email)
    (fun a => { a with rateLimitedUntil := some (now + RATE_LIMIT_COOLDOWN_MS) })
    config.accounts⟩

/--
Function `updateCachedQuota` (accounts.ts lines 85–99): overwrites `cachedImageQuota`
with `{ remainingFraction, resetTime, updatedAt: Date.now() }`; the ambient
clock is the explicit `now` argument.
-/
def updateCachedQuota (config : AccountsConfig) (email : String)
    (remainingFraction : ℚ) (resetTime : Option String) (now : Nat) :
    AccountsConfig :=
  ⟨updateFirst (fun a => a.email == email)
    (fun a =>
      { a with cachedImageQuota := some ⟨remainingFraction, resetTime, now⟩ })
    config.accounts⟩

-- ── Resilient request executor (`generateImage`, unnamed API module) ──

/--
Classified outcome of one `attemptGeneration` call, as branched on by the
executor: `result.success && result.imageData` ⇒ success; HTTP 503 ⇒ retry in
place; HTTP 429 ⇒ next endpoint; a client timeout surfaces as `status = 0`
and, like every other failure, falls into the final "any other error" branch.
-/
inductive Outcome where
  | ok
  | capacity
  | rateLimited
  | timeout
  | otherFailure
deriving DecidableEq, Repr

/-- Terminal result of the executor, at the granularity the claims need. -/
inductive ExecResult where
  /-- The success return (`result.success && result.imageData`). -/
  | ok
  /-- The immediate `return { ...result }` of the "any other error" branch
  (also taken for timeouts, which arrive with `status = 0`). -/
  | failedOther
  /-- The final aggregate failure, carrying `isRateLimited = allRateLimited`
  and `isCapacityError = allCapacity`. -/
  | aggregate (allRateLimited : Bool) (allCapacity : Bool)
deriving DecidableEq, Repr

/-- Observable events of one executor run: attempts and backoff sleeps. -/
inductive ExecEvent where
  | attempt (endpoint : Nat) (retry : Nat)
  | sleep (ms : Nat)
deriving DecidableEq, Repr

/-- How the inner 503-retry loop ends, seen from the endpoint loop. -/
inductive InnerExit where
  /-- A `return` statement fired inside the loop body. -/
  | finished (r : ExecResult)
  /-- The loop ran out (503s) or hit `break` (429): go to the next endpoint
  with the updated `allRateLimited` / `allCapacity` flags. -/
  | nextEndpoint (allRateLimited : Bool) (allCapacity : Bool)
deriving DecidableEq, Repr

/-- The backoff of the source: `CAPACITY_RETRY_BASE_DELAY_MS * 2^(retry-1)`. -/
def backoffDelay (retry : Nat) : Nat :=
  CAPACITY_RETRY_BASE_DELAY_MS * 2 ^ (retry - 1)

/--
Inner loop `for (let retry = 0; retry <= CAPACITY_RETRY_COUNT; retry++)`
of `generateImage`, for one endpoint `ep`.  `behavior ep retry` is the
classified outcome of `attemptGeneration` on that endpoint and attempt.
`fuel` counts the iterations left (`CAPACITY_RETRY_COUNT + 1` at entry),
`retry` is the loop counter, and the two Booleans are `allRateLimited` /
`allCapacity`.  Before every iteration with `retry > 0` the source sleeps
`backoffDelay retry`; success returns; 503 clears `allRateLimited` and
continues; 429 clears `allCapacity` and breaks; anything else returns.
-/
def retryLoop (behavior : Nat → Nat → Outcome) (ep : Nat) :
    Nat → Nat → Bool → Bool → InnerExit × List ExecEvent
  | 0, _, aRL, aCap => (.nextEndpoint aRL aCap, [])
  | fuel + 1, retry, aRL, aCap =>
    let pre : List ExecEvent :=
      if 0 < retry then [ExecEvent.sleep (backoffDelay retry)] else []
    let evs := pre ++ [ExecEvent.attempt ep retry]
    match behavior ep retry with
    | .ok => (.finished .ok, evs)
    | .capacity =>
      let rest := retryLoop behavior ep fuel (retry + 1) false aCap
      (rest.1, evs ++ rest.2)
    | .rateLimited => (.nextEndpoint aRL false, evs)
    | .timeout => (.finished .failedOther, evs)
    | .otherFailure => (.finished .failedOther, evs)

/--
The outer loop `for (const baseUrl of CLOUDCODE_FALLBACK_URLS)`, over the
(indices of the) remaining endpoints; after the last endpoint the aggregate
failure `{ isRateLimited: allRateLimited, isCapacityError: allCapacity }`
is returned.
-/
def endpointLoop (behavior : Nat → Nat → Outcome) (retryCount : Nat) :
    List Nat → Bool → Bool → ExecResult × List ExecEvent
  | [], aRL, aCap => (.aggregate aRL aCap, [])
  | ep :: rest, aRL, aCap =>
    let inner := retryLoop behavior ep (retryCount + 1) 0 aRL aCap
    match inner.1 with
    | .finished r => (r, inner.2)
    | .nextEndpoint aRL2 aCap2 =>
      let tail := endpointLoop behavior retryCount rest aRL2 aCap2
      (tail.1, inner.2 ++ tail.2)

/--
The retry/endpoint core of `generateImage`: `numEndpoints` endpoints in
priority order, `retryCount` extra 503-retries per endpoint, both flags
initialized to `true`.
-/
def generateImage (behavior : Nat → Nat → Outcome)
    (numEndpoints retryCount : Nat) : ExecResult × List ExecEvent :=
  endpointLoop behavior retryCount (List.range numEndpoints) true true

/--
Function `generateImage` at the source's actual configuration: the three
`CLOUDCODE_FALLBACK_URLS` endpoints and `CAPACITY_RETRY_COUNT` retries.
-/
def generateImageRun (behavior : Nat → Nat → Outcome) :
    ExecResult × List ExecEvent :=
  generateImage behavior CLOUDCODE_FALLBACK_URLS.length CAPACITY_RETRY_COUNT

/--
The event trace an endpoint produces while every attempt keeps returning
503: attempt `retry`, then for each further iteration a backoff sleep
followed by the next attempt.
-/
def capacityEvents (ep : Nat) : Nat → Nat → List ExecEvent
  | 0, _ => []
  | fuel + 1, retry =>
    (if 0 < retry then [ExecEvent.sleep (backoffDelay retry)] else [])
      ++ ExecEvent.attempt ep retry :: capacityEvents ep fuel (retry + 1)

/-- Number of attempts a trace records against endpoint `ep`. -/
def attemptsOn (ep : Nat) (events : List ExecEvent) : Nat :=
  events.countP (fun e =>
    match e with
    | .attempt e2 _ => e2 == ep
    | .sleep _ => false)

-- ── First-minimum characterization of the stable LRU sort ──

/--
First minimum of a list under `effLastUsed`: the element a stable
least-`lastUsed`-first sort puts at position 0 (earliest index wins ties).
-/
def firstMinLRU : List Account → Option Account
  | [] => none
  | a :: rest =>
    match firstMinLRU rest with
    | none => some a
    | some b => if effLastUsed a ≤ effLastUsed b then some a else some b

-- ── Concrete stores and behaviors used by witnesses and counterexamples ──

/-- Never-used account holding a fresh, fully exhausted cached quota. -/
def cexAcctA : Account :=
  ⟨"a", "ra", none, none, none, none, none, some ⟨mkRat 0 1, none, 1000⟩⟩

/-- Previously-used account (`lastUsed = 100`) with no cached quota. -/
def cexAcctB : Account :=
  ⟨"b", "rb", none, none, none, some 100, none, none⟩

/-- Store for the global-LRU counterexample: `cexAcctA` before `cexAcctB`. -/
def cexConfig : AccountsConfig := ⟨[cexAcctA, cexAcctB]⟩

/-- Account used at time 50, no quota data. -/
def lruAcctP : Account := ⟨"p", "rp", none, none, none, some 50, none, none⟩

/-- Never-used account, no quota data. -/
def lruAcctQ : Account := ⟨"q", "rq", none, none, none, none, none, none⟩

/-- Store with a used and a never-used account, both with headroom. -/
def lruConfig : AccountsConfig := ⟨[lruAcctP, lruAcctQ]⟩

/-- Account whose fresh cached quota sits exactly at the soft threshold. -/
def quotaAcctAt : Account :=
  ⟨"t", "rt", none, none, none, none, none, some ⟨mkRat 1 10, none, 0⟩⟩

/-- Account whose cached quota is exhausted but stale. -/
def quotaAcctStale : Account :=
  ⟨"s", "rs", none, none, none, none, none, some ⟨mkRat 0 1, none, 0⟩⟩

/-- Account whose cooldown ends at time 5. -/
def cooldownAcct : Account :=
  ⟨"c", "rc", none, none, none, none, some 5, none⟩

/-- Store containing only `cooldownAcct`. -/
def cooldownConfig : AccountsConfig := ⟨[cooldownAcct]⟩

/-- Soft-exceeded account used at time 30. -/
def softAcct1 : Account :=
  ⟨"s1", "r1", none, none, none, some 30, none, some ⟨mkRat 1 20, none, 100⟩⟩

/-- Soft-exceeded account used at time 20. -/
def softAcct2 : Account :=
  ⟨"s2", "r2", none, none, none, some 20, none, some ⟨mkRat 1 20, none, 100⟩⟩

/-- Store in which every account is soft-exceeded at time 100. -/
def softConfig : AccountsConfig := ⟨[softAcct1, softAcct2]⟩

/-- Never-used but soft-exceeded account. -/
def mixAcctSoft : Account :=
  ⟨"m1", "r1", none, none, none, none, none, some ⟨mkRat 1 20, none, 100⟩⟩

/-- Headroom account used at time 500. -/
def mixAcctHead : Account :=
  ⟨"m2", "r2", none, none, none, some 500, none, none⟩

/-- Store mixing a soft-exceeded and a headroom account. -/
def mixConfig : AccountsConfig := ⟨[mixAcctSoft, mixAcctHead]⟩

/-- Account with `lastUsed` and `rateLimitedUntil` both present. -/
def frameAcct1 : Account := ⟨"f1", "r1", none, none, none, some 1, some 2, none⟩

/-- Account with a cached quota present. -/
def frameAcct2 : Account :=
  ⟨"f2", "r2", none, none, none, none, none, some ⟨mkRat 1 2, some "rt", 7⟩⟩

/-- Two-account store for the frame-effect witness. -/
def frameConfig : AccountsConfig := ⟨[frameAcct1, frameAcct2]⟩

/-- Account carrying a stale cooldown value to be overwritten. -/
def cdAcct : Account := ⟨"d", "rd", none, none, none, none, some 999, none⟩

/-- Store containing only `cdAcct`. -/
def cdConfig : AccountsConfig := ⟨[cdAcct]⟩

/-- Behavior: endpoint 0 always lacks capacity, every other endpoint works. -/
def behCapThenOk : Nat → Nat → Outcome := fun ep _ =>
  match ep with
  | 0 => .capacity
  | _ + 1 => .ok

/-- Behavior: every attempt on every endpoint is rate-limited (429). -/
def behAllRateLimited : Nat → Nat → Outcome := fun _ _ => .rateLimited

/-- Behavior: every attempt on every endpoint lacks capacity (503). -/
def behAllCapacity : Nat → Nat → Outcome := fun _ _ => .capacity

/-- Behavior: every attempt times out. -/
def behAllTimeout : Nat → Nat → Outcome := fun _ _ => .timeout

/-- Behavior: every attempt fails with a non-429/503 error. -/
def behAllOther : Nat → Nat → Outcome := fun _ _ => .otherFailure

-- ── Lemmas about the LRU comparator and the stable sort ──

theorem lruLE_trans : ∀ a b c : Account, lruLE a b → lruLE b c → lruLE a c := by
  intro a b c hab hbc
  simp only [lruLE, decide_eq_true_eq] at hab hbc ⊢
  omega

theorem lruLE_total : ∀ a b : Account, lruLE a b || lruLE b a := by
  intro a b
  simp only [lruLE, Bool.or_eq_true, decide_eq_true_eq]
  omega

/-- Head of the stable LRU sort is the first minimum of the unsorted list. -/
theorem head_mergeSort_lru (l : List Account) :
    (l.mergeSort lruLE).head? = firstMinLRU l := by
  induction l with
  | nil => simp [firstMinLRU]
  | cons a l ih =>
    obtain ⟨l₁, l₂, h₁, h₂, h₃⟩ := List.mergeSort_cons lruLE_trans lruLE_total a l
    cases l₁ with
    | nil =>
      simp only [List.nil_append] at h₁ h₂
      rw [h₁]
      cases hl : l₂ with
      | nil =>
        have hl0 : l = [] := by
          have hlen := congrArg List.length h₂
          rw [hl] at hlen
          simp at hlen
          exact hlen
        subst hl0
        simp [firstMinLRU]
      | cons c t =>
        have hfm : firstMinLRU l = some c := by
          rw [← ih, h₂, hl]
          rfl
        have hs := List.sorted_mergeSort lruLE_trans lruLE_total (a :: l)
        rw [h₁, hl] at hs
        have hac : effLastUsed a ≤ effLastUsed c := by
          have := List.rel_of_pairwise_cons hs (List.mem_cons_self c t)
          simpa [lruLE] using this
        simp [firstMinLRU, hfm, hac]
    | cons d t =>
      rw [h₁]
      have hfm : firstMinLRU l = some d := by
        rw [← ih, h₂]
        rfl
      have hda : ¬ effLastUsed a ≤ effLastUsed d := by
        have := h₃ d (List.mem_cons_self d t)
        simpa [lruLE] using this
      simp [firstMinLRU, hfm, hda]

theorem firstMinLRU_eq_none {l : List Account} :
    firstMinLRU l = none ↔ l = [] := by
  cases l with
  | nil => simp [firstMinLRU]
  | cons a t =>
    simp only [firstMinLRU]
    cases h : firstMinLRU t with
    | none => simp
    | some b =>
      by_cases hle : effLastUsed a ≤ effLastUsed b
      · simp [hle]
      · simp [hle]

theorem firstMinLRU_mem : ∀ {l : List Account} {a : Account},
    firstMinLRU l = some a → a ∈ l := by
  intro l
  induction l with
  | nil => intro a h; simp [firstMinLRU] at h
  | cons b t ih =>
    intro a h
    simp only [firstMinLRU] at h
    cases hf : firstMinLRU t with
    | none =>
      rw [hf] at h
      have h2 : b = a := by simpa using h
      subst h2
      exact List.mem_cons_self b t
    | some c =>
      rw [hf] at h
      have h2 : (if effLastUsed b ≤ effLastUsed c then some b else some c)
          = some a := h
      by_cases hle : effLastUsed b ≤ effLastUsed c
      · rw [if_pos hle] at h2
        simp only [Option.some.injEq] at h2
        subst h2
        exact List.mem_cons_self b t
      · rw [if_neg hle] at h2
        simp only [Option.some.injEq] at h2
        subst h2
        exact List.mem_cons_of_mem b (ih hf)

theorem firstMinLRU_min : ∀ {l : List Account} {a : Account},
    firstMinLRU l = some a → ∀ b ∈ l, effLastUsed a ≤ effLastUsed b := by
  intro l
  induction l with
  | nil => intro a h; simp [firstMinLRU] at h
  | cons b t ih =>
    intro a h x hx
    simp only [firstMinLRU] at h
    cases hf : firstMinLRU t with
    | none =>
      rw [hf] at h
      have h2 : b = a := by simpa using h
      subst h2
      have ht : t = [] := firstMinLRU_eq_none.mp hf
      subst ht
      simp only [List.mem_singleton] at hx
      subst hx
      exact Nat.le_refl _
    | some c =>
      rw [hf] at h
      have h2 : (if effLastUsed b ≤ effLastUsed c then some b else some c)
          = some a := h
      by_cases hle : effLastUsed b ≤ effLastUsed c
      · rw [if_pos hle] at h2
        simp only [Option.some.injEq] at h2
        subst h2
        rcases List.mem_cons.mp hx with hxb | hxt
        · rw [hxb]
        · exact Nat.le_trans hle (ih hf x hxt)
      · rw [if_neg hle] at h2
        simp only [Option.some.injEq] at h2
        subst h2
        rcases List.mem_cons.mp hx with hxb | hxt
        · rw [hxb]
          omega
        · exact ih hf x hxt

/--
`firstMinLRU` returns the element at the first index realizing the global
minimum of `effLastUsed`: every earlier index has a strictly larger key.
-/
theorem firstMinLRU_first : ∀ (l : List Account), l ≠ [] →
    ∃ i, ∃ hi : i < l.length,
      firstMinLRU l = some (l.get ⟨i, hi⟩) ∧
      (∀ b ∈ l, effLastUsed (l.get ⟨i, hi⟩) ≤ effLastUsed b) ∧
      ∀ j, ∀ hj : j < i,
        effLastUsed (l.get ⟨i, hi⟩) < effLastUsed (l.get ⟨j, Nat.lt_trans hj hi⟩) := by
  intro l
  induction l with
  | nil => intro h; exact absurd rfl h
  | cons a t ih =>
    intro _
    by_cases htne : t = []
    · subst htne
      refine ⟨0, by simp, by simp [firstMinLRU], ?_, ?_⟩
      · intro b hb
        simp only [List.mem_singleton] at hb
        subst hb
        exact Nat.le_refl _
      · intro j hj
        omega
    · obtain ⟨i, hi, heq, hmin, hfirst⟩ := ih htne
      have hunf : firstMinLRU (a :: t)
          = (if effLastUsed a ≤ effLastUsed (t.get ⟨i, hi⟩) then some a
             else some (t.get ⟨i, hi⟩)) := by
        simp only [firstMinLRU, heq]
      by_cases hle : effLastUsed a ≤ effLastUsed (t.get ⟨i, hi⟩)
      · refine ⟨0, by simp, ?_, ?_, ?_⟩
        · rw [hunf, if_pos hle]
          rfl
        · intro b hb
          rcases List.mem_cons.mp hb with hba | hbt
          · subst hba; exact Nat.le_refl _
          · exact Nat.le_trans hle (hmin b hbt)
        · intro j hj
          exact absurd hj (Nat.not_lt_zero j)
      · refine ⟨i + 1, by simp only [List.length_cons]; omega, ?_, ?_, ?_⟩
        · show firstMinLRU (a :: t) = some (t.get ⟨i, hi⟩)
          rw [hunf, if_neg hle]
        · intro b hb
          rcases List.mem_cons.mp hb with hba | hbt
          · subst hba
            show effLastUsed (t.get ⟨i, hi⟩) ≤ effLastUsed b
            omega
          · exact hmin b hbt
        · intro j hj
          cases j with
          | zero =>
            show effLastUsed (t.get ⟨i, hi⟩) < effLastUsed a
            omega
          | succ j2 =>
            have hj2 : j2 < i := Nat.lt_of_succ_lt_succ hj
            exact hfirst j2 hj2

-- ── Lemmas about the selection pools ──

/-- Unfolding `selectAccount` through the stable sort: it returns the first
least-recently-used element of the preferred pool. -/
theorem selectAccount_eq_firstMinLRU (config : AccountsConfig)
    (excl : List String) (now : Nat) :
    selectAccount config excl now = firstMinLRU (poolOf config excl now) := by
  have h : selectAccount config excl now
      = (if (poolOf config excl now).length = 0 then none
         else ((poolOf config excl now).mergeSort lruLE).head?) := by
    simp only [selectAccount, poolOf, availPool, softPool,
      List.partition_eq_filter_filter, Function.comp_def]
  rw [h]
  by_cases h0 : (poolOf config excl now).length = 0
  · rw [if_pos h0, List.length_eq_zero.mp h0]
    rfl
  · rw [if_neg h0]
    exact head_mergeSort_lru _

theorem mem_eligible_iff {config : AccountsConfig} {excl : List String}
    {now : Nat} {a : Account} :
    a ∈ eligibleAccounts config excl now ↔
      a ∈ config.accounts ∧ excl.contains a.email = false ∧
        rateLimitActive a now = false := by
  simp only [eligibleAccounts, List.mem_filter, Bool.and_eq_true,
    Bool.not_eq_true']

theorem poolOf_subset {config : AccountsConfig} {excl : List String}
    {now : Nat} {a : Account} (h : a ∈ poolOf config excl now) :
    a ∈ eligibleAccounts config excl now := by
  unfold poolOf at h
  split at h
  · unfold availPool at h
    exact (List.mem_filter.mp h).1
  · unfold softPool at h
    exact (List.mem_filter.mp h).1

theorem poolOf_eq_nil_iff {config : AccountsConfig} {excl : List String}
    {now : Nat} :
    poolOf config excl now = [] ↔ eligibleAccounts config excl now = [] := by
  constructor
  · intro hp
    unfold poolOf at hp
    split at hp
    · rename_i hlen
      rw [hp] at hlen
      simp at hlen
    · rename_i hlen
      have havail : availPool config excl now = [] := by
        have : (availPool config excl now).length = 0 := by omega
        exact List.length_eq_zero.mp this
      rw [List.eq_nil_iff_forall_not_mem]
      intro a ha
      by_cases hq : isSoftQuotaExceeded now a
      · have hmem : a ∈ softPool config excl now :=
          List.mem_filter.mpr ⟨ha, by simp [hq]⟩
        rw [hp] at hmem
        simp at hmem
      · have hmem : a ∈ availPool config excl now :=
          List.mem_filter.mpr ⟨ha, by simp [hq]⟩
        rw [havail] at hmem
        simp at hmem
  · intro he
    unfold poolOf availPool softPool
    rw [he]
    simp

-- ── Lemmas about the first-match mutators ──

theorem updateFirst_no_match {p : Account → Bool} {f : Account → Account} :
    ∀ {l : List Account}, (∀ a ∈ l, p a = false) → updateFirst p f l = l := by
  intro l
  induction l with
  | nil => intro _; rfl
  | cons a t ih =>
    intro h
    have ha : p a = false := h a (List.mem_cons_self a t)
    simp only [updateFirst, ha, Bool.false_eq_true, if_false]
    rw [ih (fun b hb => h b (List.mem_cons_of_mem a hb))]

theorem updateFirst_eq_set {p : Account → Bool} {f : Account → Account} :
    ∀ (l : List Account) (i : Nat) (hi : i < l.length),
      p (l.get ⟨i, hi⟩) = true →
      (∀ j, ∀ hj : j < i, p (l.get ⟨j, Nat.lt_trans hj hi⟩) = false) →
      updateFirst p f l = l.set i (f (l.get ⟨i, hi⟩)) := by
  intro l
  induction l with
  | nil => intro i hi; simp at hi
  | cons a t ih =>
    intro i hi hp hfirst
    cases i with
    | zero =>
      have ha : p a = true := hp
      simp only [updateFirst, ha, if_true]
      rfl
    | succ i2 =>
      have ha : p a = false := hfirst 0 (Nat.succ_pos i2)
      simp only [updateFirst, ha, Bool.false_eq_true, if_false]
      have hi2 : i2 < t.length := Nat.lt_of_succ_lt_succ hi
      have hrec := ih i2 hi2 hp
        (fun j hj => hfirst (j + 1) (Nat.succ_lt_succ hj))
      rw [hrec]
      rfl

-- ── Lemmas about the executor loops ──

/-- One unfolding step of the inner retry loop (the definition equation). -/
theorem retryLoop_succ (behavior : Nat → Nat → Outcome)
    (ep fuel retry : Nat) (aRL aCap : Bool) :
    retryLoop behavior ep (fuel + 1) retry aRL aCap
      = (let pre : List ExecEvent :=
           if 0 < retry then [ExecEvent.sleep (backoffDelay retry)] else [];
         let evs := pre ++ [ExecEvent.attempt ep retry];
         match behavior ep retry with
         | .ok => (.finished .ok, evs)
         | .capacity =>
           let rest := retryLoop behavior ep fuel (retry + 1) false aCap
           (rest.1, evs ++ rest.2)
         | .rateLimited => (.nextEndpoint aRL false, evs)
         | .timeout => (.finished .failedOther, evs)
         | .otherFailure => (.finished .failedOther, evs)) := rfl

/-- While an endpoint keeps answering 503, the inner loop runs its full
budget, emits the capacity trace, clears `allRateLimited`, and moves on. -/
theorem retryLoop_capacity {behavior : Nat → Nat → Outcome} {ep : Nat}
    (hcap : ∀ r, behavior ep r = Outcome.capacity) :
    ∀ (fuel retry : Nat) (aRL aCap : Bool),
      retryLoop behavior ep (fuel + 1) retry aRL aCap
        = (InnerExit.nextEndpoint false aCap, capacityEvents ep (fuel + 1) retry) := by
  intro fuel
  induction fuel with
  | zero =>
    intro retry aRL aCap
    rw [retryLoop_succ, hcap retry]
    simp [retryLoop, capacityEvents]
  | succ fuel ih =>
    intro retry aRL aCap
    rw [retryLoop_succ, hcap retry]
    dsimp only
    rw [ih (retry + 1) false aCap]
    simp [capacityEvents]

theorem attemptsOn_capacityEvents (ep : Nat) :
    ∀ (fuel retry : Nat), attemptsOn ep (capacityEvents ep fuel retry) = fuel := by
  intro fuel
  induction fuel with
  | zero => intro retry; rfl
  | succ fuel ih =>
    intro retry
    by_cases h0 : 0 < retry
    · simp only [capacityEvents, if_pos h0, attemptsOn, List.countP_append,
        List.countP_cons]
      have := ih (retry + 1)
      simp only [attemptsOn] at this
      simp [this, List.countP_cons]
    · simp only [capacityEvents, if_neg h0, attemptsOn, List.countP_cons]
      have := ih (retry + 1)
      simp only [attemptsOn] at this
      simp [this, List.countP_cons]

/-- Endpoints that all answer 429 on their first attempt leave
`allRateLimited` intact and clear `allCapacity`. -/
theorem endpointLoop_all_rateLimited {behavior : Nat → Nat → Outcome}
    {retryCount : Nat} :
    ∀ (l : List Nat) (aRL aCap : Bool), l ≠ [] →
      (∀ ep ∈ l, behavior ep 0 = Outcome.rateLimited) →
      (endpointLoop behavior retryCount l aRL aCap).1
        = ExecResult.aggregate aRL false := by
  intro l
  induction l with
  | nil => intro aRL aCap h; exact absurd rfl h
  | cons ep rest ih =>
    intro aRL aCap _ hall
    have hep : behavior ep 0 = Outcome.rateLimited :=
      hall ep (List.mem_cons_self ep rest)
    simp only [endpointLoop, retryLoop, hep]
    cases rest with
    | nil => rfl
    | cons ep2 rest2 =>
      have := ih aRL false (by simp)
        (fun e he => hall e (List.mem_cons_of_mem ep he))
      simpa using this

/-- Endpoints that all keep answering 503 exhaust their budgets, clear
`allRateLimited`, and leave `allCapacity` intact. -/
theorem endpointLoop_all_capacity {behavior : Nat → Nat → Outcome}
    {retryCount : Nat} :
    ∀ (l : List Nat) (aRL aCap : Bool), l ≠ [] →
      (∀ ep ∈ l, ∀ r, behavior ep r = Outcome.capacity) →
      (endpointLoop behavior retryCount l aRL aCap).1
        = ExecResult.aggregate false aCap := by
  intro l
  induction l with
  | nil => intro aRL aCap h; exact absurd rfl h
  | cons ep rest ih =>
    intro aRL aCap _ hall
    have hep : ∀ r, behavior ep r = Outcome.capacity :=
      hall ep (List.mem_cons_self ep rest)
    simp only [endpointLoop, retryLoop_capacity hep retryCount 0 aRL aCap]
    cases rest with
    | nil => rfl
    | cons ep2 rest2 =>
      have := ih false aCap (by simp)
        (fun e he => hall e (List.mem_cons_of_mem ep he))
      simpa using this

-- ── Claim theorems: account scheduler ──

/--
C1 (amended): for every non-empty credential set with no exclusions, no
active cooldowns, and no soft-exceeded credentials, Selection returns the
credential with the globally smallest effective `lastUsedAt`, where an
absent `lastUsedAt` counts as 0 (the smallest timestamp value); ties —
including a tie between a never-used credential and one used at timestamp
0 — are broken by the credentials' original order in the store.
-/
theorem selectAccount_global_lru (config : AccountsConfig) (now : Nat)
    (hne : config.accounts ≠ [])
    (hcool : ∀ a ∈ config.accounts, rateLimitActive a now = false)
    (hsoft : ∀ a ∈ config.accounts, isSoftQuotaExceeded now a = false) :
    ∃ i, ∃ hi : i < config.accounts.length,
      selectAccount config [] now = some (config.accounts.get ⟨i, hi⟩) ∧
      (∀ b ∈ config.accounts,
        effLastUsed (config.accounts.get ⟨i, hi⟩) ≤ effLastUsed b) ∧
      ∀ j, ∀ hj : j < i,
        effLastUsed (config.accounts.get ⟨i, hi⟩)
          < effLastUsed (config.accounts.get ⟨j, Nat.lt_trans hj hi⟩) := by
  have helig : eligibleAccounts config [] now = config.accounts := by
    unfold eligibleAccounts
    apply List.filter_eq_self.mpr
    intro a ha
    simp [hcool a ha]
  have havail : availPool config [] now = config.accounts := by
    unfold availPool
    rw [helig]
    apply List.filter_eq_self.mpr
    intro a ha
    simp [hsoft a ha]
  have hpool : poolOf config [] now = config.accounts := by
    unfold poolOf
    rw [havail, if_pos (List.length_pos.mpr hne)]
  rw [selectAccount_eq_firstMinLRU, hpool]
  exact firstMinLRU_first config.accounts hne

/-- C1 witness: on a store holding a used and a never-used account the
amended claim applies and picks the never-used one (index 1). -/
theorem selectAccount_global_lru_witness :
    ∃ i, ∃ hi : i < lruConfig.accounts.length,
      selectAccount lruConfig [] 60 = some (lruConfig.accounts.get ⟨i, hi⟩) ∧
      (∀ b ∈ lruConfig.accounts,
        effLastUsed (lruConfig.accounts.get ⟨i, hi⟩) ≤ effLastUsed b) ∧
      ∀ j, ∀ hj : j < i,
        effLastUsed (lruConfig.accounts.get ⟨i, hi⟩)
          < effLastUsed (lruConfig.accounts.get ⟨j, Nat.lt_trans hj hi⟩) :=
  selectAccount_global_lru lruConfig 60 (by decide) (by decide) (by decide)

/--
C1 counterexample: in `cexConfig` there are no exclusions and no cooldowns,
the never-used `cexAcctA` has the globally smallest effective `lastUsedAt`
(0 < 100), yet Selection returns the previously-used `cexAcctB`, because
`cexAcctA` carries a fresh soft-exceeded cached quota and the headroom pool
is preferred.  This refutes the claim as stated.
-/
theorem selectAccount_global_lru_cex :
    cexConfig.accounts ≠ [] ∧
    (∀ a ∈ cexConfig.accounts, rateLimitActive a 1000 = false) ∧
    cexAcctA ∈ cexConfig.accounts ∧ cexAcctA.lastUsed = none ∧
    cexAcctB.lastUsed = some 100 ∧
    selectAccount cexConfig [] 1000 = some cexAcctB ∧
    effLastUsed cexAcctA < effLastUsed cexAcctB := by
  refine ⟨by decide, by decide, by decide, rfl, rfl, ?_, by decide⟩
  rw [selectAccount_eq_firstMinLRU]
  decide

/--
C4: a cached quota is fresh exactly when `now - updatedAt ≤ freshnessWindow`;
a fresh quota exactly at the soft threshold is classified soft-exceeded
(the comparison is inclusive); a stale quota is classified headroom
(not soft-exceeded) regardless of its remaining fraction.
-/
theorem isSoftQuotaExceeded_classification (a : Account) (q : CachedQuota)
    (now : Nat) (hq : a.cachedImageQuota = some q) :
    (isSoftQuotaExceeded now a = true ↔
      (now - q.updatedAt ≤ QUOTA_CACHE_TTL_MS ∧
        q.remainingFraction ≤ SOFT_QUOTA_THRESHOLD)) ∧
    (now - q.updatedAt ≤ QUOTA_CACHE_TTL_MS →
      q.remainingFraction = SOFT_QUOTA_THRESHOLD →
      isSoftQuotaExceeded now a = true) ∧
    (QUOTA_CACHE_TTL_MS < now - q.updatedAt →
      isSoftQuotaExceeded now a = false) := by
  have hun : isSoftQuotaExceeded now a
      = (if QUOTA_CACHE_TTL_MS < now - q.updatedAt then false
         else decide (q.remainingFraction ≤ SOFT_QUOTA_THRESHOLD)) := by
    unfold isSoftQuotaExceeded
    rw [hq]
  refine ⟨⟨?_, ?_⟩, ?_, ?_⟩
  · intro h
    rw [hun] at h
    by_cases hf : QUOTA_CACHE_TTL_MS < now - q.updatedAt
    · rw [if_pos hf] at h
      exact absurd h (by simp)
    · rw [if_neg hf] at h
      exact ⟨Nat.le_of_not_lt hf, of_decide_eq_true h⟩
  · rintro ⟨h1, h2⟩
    rw [hun, if_neg (Nat.not_lt.mpr h1)]
    exact decide_eq_true h2
  · intro h1 h2
    rw [hun, if_neg (Nat.not_lt.mpr h1)]
    exact decide_eq_true (le_of_eq h2)
  · intro h
    rw [hun, if_pos h]

/-- C4 witness: an exactly-at-threshold fresh quota is soft-exceeded, and a
stale exhausted quota is not. -/
theorem isSoftQuotaExceeded_classification_witness :
    isSoftQuotaExceeded QUOTA_CACHE_TTL_MS quotaAcctAt = true ∧
    isSoftQuotaExceeded (QUOTA_CACHE_TTL_MS + 1) quotaAcctStale = false :=
  ⟨(isSoftQuotaExceeded_classification quotaAcctAt ⟨mkRat 1 10, none, 0⟩
      QUOTA_CACHE_TTL_MS rfl).2.1 (by decide) (by decide),
   (isSoftQuotaExceeded_classification quotaAcctStale ⟨mkRat 0 1, none, 0⟩
      (QUOTA_CACHE_TTL_MS + 1) rfl).2.2 (by decide)⟩

/--
C5: Selection returns `none` iff every credential is excluded or
cooldown-active; a returned credential is never excluded nor
cooldown-active; and a credential whose cooldown has expired
(`rateLimitedUntil ≤ now`) makes Selection succeed again when it is
otherwise unexcluded.
-/
theorem selectAccount_none_iff (config : AccountsConfig)
    (excl : List String) (now : Nat) :
    (selectAccount config excl now = none ↔
      ∀ a ∈ config.accounts,
        excl.contains a.email = true ∨ rateLimitActive a now = true) ∧
    (∀ a, selectAccount config excl now = some a →
      a ∈ config.accounts ∧ excl.contains a.email = false ∧
        rateLimitActive a now = false) ∧
    (∀ a t, a ∈ config.accounts → excl.contains a.email = false →
      a.rateLimitedUntil = some t → t ≤ now →
      (selectAccount config excl now).isSome = true) := by
  have hiff : selectAccount config excl now = none ↔
      eligibleAccounts config excl now = [] := by
    rw [selectAccount_eq_firstMinLRU, firstMinLRU_eq_none, poolOf_eq_nil_iff]
  refine ⟨?_, ?_, ?_⟩
  · rw [hiff]
    unfold eligibleAccounts
    rw [List.filter_eq_nil_iff]
    constructor
    · intro h a ha
      have h2 := h a ha
      cases hc : excl.contains a.email with
      | true => exact Or.inl rfl
      | false =>
        cases hr : rateLimitActive a now with
        | true => exact Or.inr rfl
        | false => exact absurd (by rw [hc, hr]; rfl) h2
    · intro h a ha
      rcases h a ha with hc | hr
      · rw [hc]
        simp
      · rw [hr]
        simp
  · intro a hsome
    have hmem : a ∈ poolOf config excl now := by
      apply firstMinLRU_mem
      rw [← selectAccount_eq_firstMinLRU]
      exact hsome
    exact mem_eligible_iff.mp (poolOf_subset hmem)
  · intro a t ha hc hrl hle
    have haelig : a ∈ eligibleAccounts config excl now := by
      apply mem_eligible_iff.mpr
      refine ⟨ha, hc, ?_⟩
      unfold rateLimitActive
      rw [hrl]
      exact decide_eq_false (Nat.not_lt.mpr hle)
    have hne : eligibleAccounts config excl now ≠ [] := by
      intro h0
      rw [h0] at haelig
      simp at haelig
    have hp : poolOf config excl now ≠ [] :=
      fun h0 => hne (poolOf_eq_nil_iff.mp h0)
    rw [selectAccount_eq_firstMinLRU]
    cases hf : firstMinLRU (poolOf config excl now) with
    | none => exact absurd (firstMinLRU_eq_none.mp hf) hp
    | some b => rfl

/-- C5 witness: the cooldown of `cooldownAcct` ends at 5, so at `now = 10`
Selection succeeds again. -/
theorem selectAccount_none_iff_witness :
    (selectAccount cooldownConfig [] 10).isSome = true :=
  (selectAccount_none_iff cooldownConfig [] 10).2.2 cooldownAcct 5
    (by decide) (by decide) (by decide) (by decide)

/--
C6: Selection draws from the headroom pool whenever it is non-empty, and
when every eligible credential is soft-exceeded it still returns the
least-recently-used soft-exceeded credential instead of `none`.
-/
theorem selectAccount_pool_preference (config : AccountsConfig)
    (excl : List String) (now : Nat) :
    (availPool config excl now ≠ [] →
      ∃ a, selectAccount config excl now = some a ∧
        a ∈ availPool config excl now) ∧
    (availPool config excl now = [] → softPool config excl now ≠ [] →
      ∃ a, selectAccount config excl now = some a ∧
        a ∈ softPool config excl now ∧
        ∀ b ∈ softPool config excl now, effLastUsed a ≤ effLastUsed b) := by
  constructor
  · intro hav
    have hpool : poolOf config excl now = availPool config excl now := by
      unfold poolOf
      rw [if_pos (List.length_pos.mpr hav)]
    rw [selectAccount_eq_firstMinLRU, hpool]
    cases hf : firstMinLRU (availPool config excl now) with
    | none => exact absurd (firstMinLRU_eq_none.mp hf) hav
    | some a => exact ⟨a, rfl, firstMinLRU_mem hf⟩
  · intro hav hsoft
    have hpool : poolOf config excl now = softPool config excl now := by
      unfold poolOf
      rw [hav]
      simp
    rw [selectAccount_eq_firstMinLRU, hpool]
    cases hf : firstMinLRU (softPool config excl now) with
    | none => exact absurd (firstMinLRU_eq_none.mp hf) hsoft
    | some a => exact ⟨a, rfl, firstMinLRU_mem hf, firstMinLRU_min hf⟩

/-- C6 witness: a mixed store picks from the headroom pool; an all-soft
store still yields its least-recently-used member. -/
theorem selectAccount_pool_preference_witness :
    (∃ a, selectAccount mixConfig [] 100 = some a ∧
      a ∈ availPool mixConfig [] 100) ∧
    (∃ a, selectAccount softConfig [] 100 = some a ∧
      a ∈ softPool softConfig [] 100 ∧
      ∀ b ∈ softPool softConfig [] 100, effLastUsed a ≤ effLastUsed b) :=
  ⟨(selectAccount_pool_preference mixConfig [] 100).1 (by decide),
   (selectAccount_pool_preference softConfig [] 100).2 (by decide) (by decide)⟩

/--
C8: each recording operation touches only its target field on the first
record whose identity matches the key (expressed with `List.set` of a
single-field update), leaves every other record untouched, and is a
complete no-op — store returned unchanged, nothing created, no failure —
when no record matches.
-/
theorem record_ops_frame (config : AccountsConfig) (email : String)
    (now : Nat) (frac : ℚ) (rt : Option String) :
    ((∀ a ∈ config.accounts, (a.email == email) = false) →
      markUsed config email now = config ∧
      markRateLimited config email now = config ∧
      updateCachedQuota config email frac rt now = config) ∧
    (∀ i, ∀ hi : i < config.accounts.length,
      (config.accounts.get ⟨i, hi⟩).email = email →
      (∀ j, ∀ hj : j < i,
        (config.accounts.get ⟨j, Nat.lt_trans hj hi⟩).email ≠ email) →
      (markUsed config email now).accounts
        = config.accounts.set i
            { config.accounts.get ⟨i, hi⟩ with lastUsed := some now } ∧
      (markRateLimited config email now).accounts
        = config.accounts.set i
            { config.accounts.get ⟨i, hi⟩ with
                rateLimitedUntil := some (now + RATE_LIMIT_COOLDOWN_MS) } ∧
      (updateCachedQuota config email frac rt now).accounts
        = config.accounts.set i
            { config.accounts.get ⟨i, hi⟩ with
                cachedImageQuota := some ⟨frac, rt, now⟩ }) := by
  constructor
  · intro hnone
    obtain ⟨accounts⟩ := config
    refine ⟨?_, ?_, ?_⟩ <;>
      simp only [markUsed, markRateLimited, updateCachedQuota,
        AccountsConfig.mk.injEq] <;>
      exact updateFirst_no_match hnone
  · intro i hi hp hfirst
    have hbtrue : ((config.accounts.get ⟨i, hi⟩).email == email) = true :=
      beq_iff_eq.mpr hp
    have hbfalse : ∀ j, ∀ hj : j < i,
        ((config.accounts.get ⟨j, Nat.lt_trans hj hi⟩).email == email)
          = false :=
      fun j hj => beq_eq_false_iff_ne.mpr (hfirst j hj)
    exact ⟨updateFirst_eq_set config.accounts i hi hbtrue hbfalse,
           updateFirst_eq_set config.accounts i hi hbtrue hbfalse,
           updateFirst_eq_set config.accounts i hi hbtrue hbfalse⟩

/-- C8 witness: an unknown key leaves the store untouched; a known key
updates exactly the matched record's target field. -/
theorem record_ops_frame_witness :
    markUsed frameConfig "zz" 42 = frameConfig ∧
    markRateLimited frameConfig "zz" 42 = frameConfig ∧
    (markUsed frameConfig "f2" 42).accounts
      = frameConfig.accounts.set 1 { frameAcct2 with lastUsed := some 42 } ∧
    (updateCachedQuota frameConfig "f2" (mkRat 1 4) (some "x") 42).accounts
      = frameConfig.accounts.set 1
          { frameAcct2 with
              cachedImageQuota := some ⟨mkRat 1 4, some "x", 42⟩ } := by
  have hlt : 1 < frameConfig.accounts.length := by decide
  have hfirst : ∀ j, ∀ hj : j < 1,
      (frameConfig.accounts.get ⟨j, Nat.lt_trans hj hlt⟩).email ≠ "f2" := by
    intro j hj
    have hj0 : j = 0 := by omega
    subst hj0
    show frameAcct1.email ≠ "f2"
    decide
  have hp : (frameConfig.accounts.get ⟨1, hlt⟩).email = "f2" := rfl
  refine ⟨?_, ?_, ?_, ?_⟩
  · exact ((record_ops_frame frameConfig "zz" 42 (mkRat 1 4) none).1
      (by decide)).1
  · exact ((record_ops_frame frameConfig "zz" 42 (mkRat 1 4) none).1
      (by decide)).2.1
  · exact ((record_ops_frame frameConfig "f2" 42 (mkRat 1 4)
      (some "x")).2 1 hlt hp hfirst).1
  · exact ((record_ops_frame frameConfig "f2" 42 (mkRat 1 4)
      (some "x")).2 1 hlt hp hfirst).2.2

/--
C9: on a known key, `recordRateLimited` sets the matched record's
`rateLimitedUntil` to exactly `now + RATE_LIMIT_COOLDOWN_MS`, the fixed
five-minute cooldown, overwriting whatever value was stored before.
-/
theorem markRateLimited_sets_cooldown (config : AccountsConfig)
    (email : String) (now : Nat) (i : Nat)
    (hi : i < config.accounts.length)
    (hp : (config.accounts.get ⟨i, hi⟩).email = email)
    (hfirst : ∀ j, ∀ hj : j < i,
      (config.accounts.get ⟨j, Nat.lt_trans hj hi⟩).email ≠ email) :
    ∃ hlen : i < (markRateLimited config email now).accounts.length,
      ((markRateLimited config email now).accounts.get
          ⟨i, hlen⟩).rateLimitedUntil
        = some (now + RATE_LIMIT_COOLDOWN_MS) ∧
      RATE_LIMIT_COOLDOWN_MS = 5 * 60 * 1000 := by
  have hset : (markRateLimited config email now).accounts
      = config.accounts.set i
          { config.accounts.get ⟨i, hi⟩ with
              rateLimitedUntil := some (now + RATE_LIMIT_COOLDOWN_MS) } :=
    updateFirst_eq_set config.accounts i hi (beq_iff_eq.mpr hp)
      (fun j hj => beq_eq_false_iff_ne.mpr (hfirst j hj))
  have hlen : i < (markRateLimited config email now).accounts.length := by
    rw [hset, List.length_set]
    exact hi
  refine ⟨hlen, ?_, rfl⟩
  rw [List.get_eq_getElem]
  simp only [hset, List.getElem_set_self]

/-- C9 witness: `cdAcct` held cooldown 999; after `markRateLimited` at
`now = 7` the stored cooldown is exactly `7 + 300000`. -/
theorem markRateLimited_sets_cooldown_witness :
    ∃ hlen : 0 < (markRateLimited cdConfig "d" 7).accounts.length,
      ((markRateLimited cdConfig "d" 7).accounts.get
          ⟨0, hlen⟩).rateLimitedUntil = some (7 + RATE_LIMIT_COOLDOWN_MS) ∧
      RATE_LIMIT_COOLDOWN_MS = 5 * 60 * 1000 :=
  markRateLimited_sets_cooldown cdConfig "d" 7 0 (by decide) (by decide)
    (fun j hj => absurd hj (Nat.not_lt_zero j))

/--
C10: Selection never mutates the credential store — the store component of
the state-threaded translation is returned unchanged, record order and
fields included, and the least-recently-used sort is applied only to the
freshly built candidate pool.
-/
theorem selectAccount_preserves_store (config : AccountsConfig)
    (excl : List String) (now : Nat) :
    (selectAccountS config excl now).2 = config ∧
    (selectAccountS config excl now).2.accounts = config.accounts ∧
    (selectAccountS config excl now).1 = selectAccount config excl now ∧
    selectAccount config excl now
      = ((poolOf config excl now).mergeSort lruLE).head? := by
  refine ⟨rfl, rfl, rfl, ?_⟩
  rw [selectAccount_eq_firstMinLRU]
  exact (head_mergeSort_lru _).symm

-- ── Claim theorems: resilient request executor ──

/-- One unfolding step of the endpoint loop (the definition equation). -/
theorem endpointLoop_cons (behavior : Nat → Nat → Outcome)
    (retryCount ep : Nat) (rest : List Nat) (aRL aCap : Bool) :
    endpointLoop behavior retryCount (ep :: rest) aRL aCap
      = (let inner := retryLoop behavior ep (retryCount + 1) 0 aRL aCap;
         match inner.1 with
         | .finished r => (r, inner.2)
         | .nextEndpoint aRL2 aCap2 =>
           let tail := endpointLoop behavior retryCount rest aRL2 aCap2
           (tail.1, inner.2 ++ tail.2)) := rfl

/--
C2: the executor retries CapacityUnavailable in place: on an endpoint that
keeps answering 503 the inner loop makes exactly `retryCount + 1` attempts
before advancing, each retry after the first attempt preceded by a sleep of
`CAPACITY_RETRY_BASE_DELAY_MS * 2 ^ (retry - 1)`; in the two-endpoint
scenario where endpoint 0 always lacks capacity and endpoint 1 succeeds at
once, the run returns success with exactly `retryCount + 1` attempts
against endpoint 0 (3 when `retryCount = 2`).
-/
theorem generateImage_capacity_retry_policy :
    (∀ (behavior : Nat → Nat → Outcome) (ep retryCount : Nat) (aRL aCap : Bool),
      (∀ r, behavior ep r = Outcome.capacity) →
      retryLoop behavior ep (retryCount + 1) 0 aRL aCap
        = (InnerExit.nextEndpoint false aCap,
           capacityEvents ep (retryCount + 1) 0) ∧
      attemptsOn ep (capacityEvents ep (retryCount + 1) 0) = retryCount + 1) ∧
    (∀ ep fuel retry, capacityEvents ep (fuel + 1) (retry + 1)
        = ExecEvent.sleep (CAPACITY_RETRY_BASE_DELAY_MS * 2 ^ retry)
            :: ExecEvent.attempt ep (retry + 1)
            :: capacityEvents ep fuel (retry + 2)) ∧
    (∀ ep fuel, capacityEvents ep (fuel + 1) 0
        = ExecEvent.attempt ep 0 :: capacityEvents ep fuel 1) ∧
    (∀ (retryCount : Nat) (behavior : Nat → Nat → Outcome),
      (∀ r, behavior 0 r = Outcome.capacity) → behavior 1 0 = Outcome.ok →
      generateImage behavior 2 retryCount
          = (ExecResult.ok,
             capacityEvents 0 (retryCount + 1) 0 ++ [ExecEvent.attempt 1 0]) ∧
      attemptsOn 0 (generateImage behavior 2 retryCount).2
          = retryCount + 1) := by
  refine ⟨?_, ?_, ?_, ?_⟩
  · intro behavior ep retryCount aRL aCap hcap
    exact ⟨retryLoop_capacity hcap retryCount 0 aRL aCap,
           attemptsOn_capacityEvents ep (retryCount + 1) 0⟩
  · intro ep fuel retry
    simp [capacityEvents, backoffDelay]
  · intro ep fuel
    simp [capacityEvents]
  · intro retryCount behavior hcap hok
    have h1 : endpointLoop behavior retryCount [1] false true
        = (ExecResult.ok, [ExecEvent.attempt 1 0]) := by
      rw [endpointLoop_cons, retryLoop_succ, hok]
      simp
    have h2 : generateImage behavior 2 retryCount
        = (ExecResult.ok,
           capacityEvents 0 (retryCount + 1) 0 ++ [ExecEvent.attempt 1 0]) := by
      show endpointLoop behavior retryCount (List.range 2) true true = _
      rw [show List.range 2 = [0, 1] from rfl, endpointLoop_cons,
        retryLoop_capacity hcap retryCount 0 true true]
      dsimp only
      rw [h1]
    refine ⟨h2, ?_⟩
    rw [h2]
    have hcount := attemptsOn_capacityEvents 0 (retryCount + 1) 0
    simp only [attemptsOn, List.countP_append] at hcount ⊢
    simp [hcount]

/-- C2 witness: the concrete scenario with `retryCount = 2`: success, three
attempts against endpoint 0, sleeps of 3000 then 6000 between them. -/
theorem generateImage_capacity_retry_policy_witness :
    generateImage behCapThenOk 2 2
        = (ExecResult.ok,
           capacityEvents 0 3 0 ++ [ExecEvent.attempt 1 0]) ∧
    attemptsOn 0 (generateImage behCapThenOk 2 2).2 = 3 ∧
    capacityEvents 0 3 0 ++ [ExecEvent.attempt 1 0]
      = [ExecEvent.attempt 0 0, ExecEvent.sleep 3000, ExecEvent.attempt 0 1,
         ExecEvent.sleep 6000, ExecEvent.attempt 0 2,
         ExecEvent.attempt 1 0] := by
  have h := generateImage_capacity_retry_policy.2.2.2 2 behCapThenOk
    (fun r => rfl) rfl
  exact ⟨h.1, h.2, by decide⟩

/--
C3: both aggregate flags start `true`; if every endpoint answers 429 on its
(single) attempt the failure reports `allEndpointsRateLimited = true` and
`allEndpointsCapacityExhausted = false`; if every endpoint exhausts its
retries on 503 the failure reports `allEndpointsCapacityExhausted = true`
and `allEndpointsRateLimited = false`.
-/
theorem generateImage_aggregate_flags (n retryCount : Nat)
    (behavior : Nat → Nat → Outcome) (hn : 0 < n) :
    ((∀ ep, ep < n → behavior ep 0 = Outcome.rateLimited) →
      (generateImage behavior n retryCount).1
        = ExecResult.aggregate true false) ∧
    ((∀ ep r, behavior ep r = Outcome.capacity) →
      (generateImage behavior n retryCount).1
        = ExecResult.aggregate false true) := by
  have hne : List.range n ≠ [] := by
    intro h0
    rw [List.range_eq_nil] at h0
    omega
  constructor
  · intro hall
    exact endpointLoop_all_rateLimited (List.range n) true true hne
      (fun ep hep => hall ep (List.mem_range.mp hep))
  · intro hall
    exact endpointLoop_all_capacity (List.range n) true true hne
      (fun ep _ r => hall ep r)

/-- C3 witness: the source's three-endpoint configuration under
all-rate-limited and all-capacity behaviors. -/
theorem generateImage_aggregate_flags_witness :
    (generateImageRun behAllRateLimited).1 = ExecResult.aggregate true false ∧
    (generateImageRun behAllCapacity).1 = ExecResult.aggregate false true :=
  ⟨(generateImage_aggregate_flags 3 3 behAllRateLimited (by decide)).1
      (fun ep _ => rfl),
   (generateImage_aggregate_flags 3 3 behAllCapacity (by decide)).2
      (fun ep r => rfl)⟩

/--
C7: a 429 attempt ends work on the current endpoint at once — no further
attempt and no backoff sleep there, execution continuing directly with the
next endpoint — while a timeout or any other non-429/503 failure makes the
executor return immediately, leaving every remaining endpoint untried (in
particular a first-endpoint OtherError means the second endpoint is never
attempted).
-/
theorem generateImage_failure_class_policy :
    (∀ (behavior : Nat → Nat → Outcome) (ep fuel retry : Nat)
        (aRL aCap : Bool),
      behavior ep retry = Outcome.rateLimited →
      retryLoop behavior ep (fuel + 1) retry aRL aCap
        = (InnerExit.nextEndpoint aRL false,
           (if 0 < retry then [ExecEvent.sleep (backoffDelay retry)] else [])
             ++ [ExecEvent.attempt ep retry])) ∧
    (∀ (behavior : Nat → Nat → Outcome) (retryCount ep : Nat)
        (rest : List Nat) (aRL aCap : Bool),
      behavior ep 0 = Outcome.rateLimited →
      endpointLoop behavior retryCount (ep :: rest) aRL aCap
        = ((endpointLoop behavior retryCount rest aRL false).1,
           ExecEvent.attempt ep 0
             :: (endpointLoop behavior retryCount rest aRL false).2)) ∧
    (∀ (behavior : Nat → Nat → Outcome) (retryCount ep : Nat)
        (rest : List Nat) (aRL aCap : Bool),
      behavior ep 0 = Outcome.timeout ∨
        behavior ep 0 = Outcome.otherFailure →
      endpointLoop behavior retryCount (ep :: rest) aRL aCap
        = (ExecResult.failedOther, [ExecEvent.attempt ep 0])) ∧
    (∀ (behavior : Nat → Nat → Outcome) (n retryCount : Nat),
      0 < n → behavior 0 0 = Outcome.otherFailure →
      generateImage behavior n retryCount
        = (ExecResult.failedOther, [ExecEvent.attempt 0 0])) := by
  refine ⟨?_, ?_, ?_, ?_⟩
  · intro behavior ep fuel retry aRL aCap h
    rw [retryLoop_succ, h]
  · intro behavior retryCount ep rest aRL aCap h
    rw [endpointLoop_cons, retryLoop_succ, h]
    dsimp only
    simp
  · intro behavior retryCount ep rest aRL aCap h
    rcases h with h | h <;>
      · rw [endpointLoop_cons, retryLoop_succ, h]
        simp
  · intro behavior n retryCount hn h
    cases n with
    | zero => omega
    | succ m =>
      show endpointLoop behavior retryCount (List.range (m + 1)) true true = _
      rw [List.range_succ_eq_map, endpointLoop_cons, retryLoop_succ, h]
      simp

/-- C7 witness: concrete behaviors for each failure class. -/
theorem generateImage_failure_class_policy_witness :
    retryLoop behAllRateLimited 0 4 0 true true
        = (InnerExit.nextEndpoint true false, [ExecEvent.attempt 0 0]) ∧
    endpointLoop behAllRateLimited 3 [0, 1] true true
        = ((endpointLoop behAllRateLimited 3 [1] true false).1,
           ExecEvent.attempt 0 0
             :: (endpointLoop behAllRateLimited 3 [1] true false).2) ∧
    endpointLoop behAllTimeout 3 [0, 1] true true
        = (ExecResult.failedOther, [ExecEvent.attempt 0 0]) ∧
    generateImage behAllOther 2 3
        = (ExecResult.failedOther, [ExecEvent.attempt 0 0]) := by
  refine ⟨?_, ?_, ?_, ?_⟩
  · have h := generateImage_failure_class_policy.1 behAllRateLimited 0 3 0
      true true rfl
    simpa using h
  · exact generateImage_failure_class_policy.2.1 behAllRateLimited 3 0 [1]
      true true rfl
  · exact generateImage_failure_class_policy.2.2.1 behAllTimeout 3 0 [1]
      true true (Or.inl rfl)
  · exact generateImage_failure_class_policy.2.2.2 behAllOther 2 3
      (by decide) rfl

end NanoBanana
